import Mathlib

/-!
Shallow embedding of the asynchronous sampler and replay-buffer subsystem of
the pytorch-rl-il repository.

Embedded from src/rlil/samplers/asyncsampler.py and src/rlil/initializer.py:
the Worker.sample rollout loop, AsyncSampler.start_sampling,
AsyncSampler.store_samples, get_replay_buffer and the AsyncSampler
constructor. The environment is modelled by the length of each successive
episode (the rollout loop only observes reset, step and done); ray is
modelled by fresh object references, a completion oracle for ray.wait and a
result oracle for ray.get. The N-step and prioritized replay buffers are not
under src (only their tests are), so they are modelled from the spec, checked
against the expected values asserted by src/tests/memory/replay_buffer_test.py.
-/

/-- Sampling budget passed to a worker: a natural number, or numpy.inf which
is the default value of max_frames and max_episodes. -/
inductive Budget
  | inf
  | fin (n : Nat)
  deriving DecidableEq

/-- Comparison frames < budget as used by the loop conditions of
Worker.sample; every natural number is below numpy.inf. -/
def budgetLt (x : Nat) : Budget → Bool
  | Budget.inf => true
  | Budget.fin m => decide (x < m)

/-- Identifier of a remote ray job, as returned by worker.sample.remote. -/
abbrev ObjectRef := Nat

/-- One trajectory batch returned by a completed worker job, kept abstract. -/
abbrev Batch := Nat

/-- State of an AsyncSampler object: the work-id table (one optional
outstanding job per worker, in worker order, as the dict self dot work_ids),
a counter producing fresh object references, and the contents of the bound
replay buffer in store order. -/
structure SamplerState where
  workIds : List (Option ObjectRef)
  nextRef : Nat
  buffer : List Batch
  deriving DecidableEq

/-- Dispatch loop of AsyncSampler.start_sampling: each worker whose recorded
work id is None receives a fresh job reference; workers with an outstanding
job are left untouched. Returns the new table and the next fresh reference. -/
def dispatchGo : Nat → List (Option ObjectRef) → List (Option ObjectRef) × Nat
  | n, [] => ([], n)
  | n, none :: rest =>
    (some n :: (dispatchGo (n + 1) rest).1, (dispatchGo (n + 1) rest).2)
  | n, some j :: rest =>
    (some j :: (dispatchGo n rest).1, (dispatchGo n rest).2)

/-- Embedding of AsyncSampler.start_sampling: the assert raises exactly when
both budgets are numpy.inf; otherwise every idle worker is given a fresh job. -/
def start_sampling (maxFrames maxEpisodes : Budget) (s : SamplerState) :
    Except String SamplerState :=
  if maxFrames = Budget.inf ∧ maxEpisodes = Budget.inf then
    Except.error ("max_frames or max_episodes must be specified")
  else
    Except.ok
      { workIds := (dispatchGo s.nextRef s.workIds).1,
        nextRef := (dispatchGo s.nextRef s.workIds).2,
        buffer := s.buffer }

/-- Iteration body of AsyncSampler.store_samples over the work-id table in
worker order. The code calls ray.wait on the recorded id of every worker
unconditionally; when that id is None (no outstanding job) ray.wait raises a
TypeError, which aborts the call while keeping batches stored so far. For a
job that completed within the timeout (oracle done) the batch (oracle result)
is appended to the replay buffer. Work ids are never modified here. -/
def storeSamplesGo (done : ObjectRef → Bool) (result : ObjectRef → Batch) :
    List (Option ObjectRef) → List Batch → List Batch × Option String
  | [], buf => (buf, none)
  | none :: _, buf =>
    (buf, some ("ray.wait received a value that is not an ObjectRef"))
  | some j :: rest, buf =>
    storeSamplesGo done result rest (if done j then buf ++ [result j] else buf)

/-- Embedding of AsyncSampler.store_samples: returns the mutated sampler
state together with the call outcome, which on success is the Python return
value None (the function body has no return statement), not a record of
frame and episode counters. -/
def store_samples (done : ObjectRef → Bool) (result : ObjectRef → Batch)
    (s : SamplerState) : SamplerState × Except String (Option (Nat × Nat)) :=
  ({ s with buffer := (storeSamplesGo done result s.workIds s.buffer).1 },
   match (storeSamplesGo done result s.workIds s.buffer).2 with
   | some e => Except.error e
   | none => Except.ok none)

/-- Embedding of rlil.initializer.get_replay_buffer: the process-wide
singleton raises ValueError when no buffer has been registered. -/
def get_replay_buffer (rb : Option (List Batch)) : Except String (List Batch) :=
  match rb with
  | none => Except.error ("replay_buffer is not set")
  | some b => Except.ok b

/-- Embedding of the AsyncSampler constructor: it reads the replay-buffer
singleton once, at construction, and binds the obtained buffer; all work ids
start as None. -/
def asyncSampler_init (rbSingleton : Option (List Batch)) (numWorkers : Nat) :
    Except String SamplerState :=
  match get_replay_buffer rbSingleton with
  | Except.error e => Except.error e
  | Except.ok b =>
    Except.ok { workIds := List.replicate numWorkers none, nextRef := 0, buffer := b }

/-- Embedding of the Worker.sample loop of asyncsampler.py, tracking the
frame and episode counters. The environment is modelled by epLen, the number
of steps of the i-th episode. Both budget comparisons sit in the condition of
the outer while loop, checked once per episode; the inner loop runs the
episode to completion with no budget check, adding the whole episode length
to the frame counter. Fuel bounds the number of outer iterations; none is
returned when it runs out. -/
def workerSampleLoop (epLen : Nat → Nat) (maxFrames maxEpisodes : Budget) :
    Nat → Nat → Nat → Option (Nat × Nat)
  | 0, _, _ => none
  | fuel + 1, frames, episodes =>
    if budgetLt frames maxFrames && budgetLt episodes maxEpisodes then
      workerSampleLoop epLen maxFrames maxEpisodes fuel
        (frames + epLen episodes) (episodes + 1)
    else
      some (frames, episodes)

/-- Worker.sample starting from the counter reset to zero. -/
def workerSample (epLen : Nat → Nat) (maxFrames maxEpisodes : Budget)
    (fuel : Nat) : Option (Nat × Nat) :=
  workerSampleLoop epLen maxFrames maxEpisodes fuel 0 0

/-- Modelled from the spec: one episode of the rollout loop as claim C3
describes it, with the frame budget checked after every environment step, so
the episode is cut short as soon as the frame budget is reached. This
per-step variant is absent from the code, which checks the frame budget only
at episode boundaries. -/
def stepEpisode (maxFrames : Budget) : Nat → Nat → Nat
  | frames, 0 => frames
  | frames, k + 1 =>
    if budgetLt frames maxFrames then stepEpisode maxFrames (frames + 1) k
    else frames

/-- Modelled from the spec: the rollout loop with the per-step frame-budget
check of claim C3, for comparison with workerSampleLoop. -/
def workerSampleStepLoop (epLen : Nat → Nat) (maxFrames maxEpisodes : Budget) :
    Nat → Nat → Nat → Option (Nat × Nat)
  | 0, _, _ => none
  | fuel + 1, frames, episodes =>
    if budgetLt frames maxFrames && budgetLt episodes maxEpisodes then
      workerSampleStepLoop epLen maxFrames maxEpisodes fuel
        (stepEpisode maxFrames frames (epLen episodes)) (episodes + 1)
    else
      some (frames, episodes)

/-- Modelled from the spec: per-step-checked rollout from zero counters. -/
def workerSampleStep (epLen : Nat → Nat) (maxFrames maxEpisodes : Budget)
    (fuel : Nat) : Option (Nat × Nat) :=
  workerSampleStepLoop epLen maxFrames maxEpisodes fuel 0 0

/-- One transition as stored by the replay buffers: state and action feature
(one-dimensional in the tests), scalar reward as an exact rational, next
state and its alive mask (false means terminal). -/
structure Transition where
  state : Int
  action : Int
  reward : ℚ
  nextState : Int
  nextMask : Bool
  deriving DecidableEq

/-- Modelled from the spec: the discounted return of a window of pending
transitions, r0 + gamma * r1 + gamma ^ 2 * r2 + ... (the NStepReplayBuffer
implementation is not under src; only its test is). -/
def nstepReturn (gamma : ℚ) : List Transition → ℚ
  | [] => 0
  | t :: ts => t.reward + gamma * nstepReturn gamma ts

/-- Modelled from the spec: the synthesized transition flushed from a window,
taking the first state and action of the window, the discounted return of all
its rewards, and the last next state and mask of the window. The empty-window
case never arises in nstepStore. -/
def mkSynth (gamma : ℚ) : List Transition → Transition
  | [] => { state := 0, action := 0, reward := 0, nextState := 0, nextMask := true }
  | t :: ts =>
    { state := t.state, action := t.action,
      reward := nstepReturn gamma (t :: ts),
      nextState := (List.getLastD ts t).nextState,
      nextMask := (List.getLastD ts t).nextMask }

/-- Modelled from the spec: store of the inner fixed-capacity uniform buffer,
appending in ring order and evicting the oldest entries beyond capacity (the
ExperienceReplayBuffer implementation is not under src; only its test is). -/
def innerStore (cap : Nat) (buf : List Transition) (t : Transition) :
    List Transition :=
  if cap < (buf ++ [t]).length then
    List.drop ((buf ++ [t]).length - cap) (buf ++ [t])
  else buf ++ [t]

/-- Modelled from the spec: on a terminal transition every pending partial
window is flushed into the inner buffer, each synthesized from all
transitions between its start and the terminal. -/
def flushAll (gamma : ℚ) (cap : Nat) :
    List Transition → List Transition → List Transition
  | inner, [] => inner
  | inner, t :: ts =>
    flushAll gamma cap (innerStore cap inner (mkSynth gamma (t :: ts))) ts

/-- Synthesized transitions produced by flushing every suffix window of a
pending list, in flush order; flushAll equals appending this list when no
eviction occurs. -/
def flushList (gamma : ℚ) : List Transition → List Transition
  | [] => []
  | t :: ts => mkSynth gamma (t :: ts) :: flushList gamma ts

/-- Modelled from the spec: the state of the N-step replay buffer, wrapping
an inner uniform buffer of capacity innerCap, with discount gamma, step count
n and the rolling accumulation window of pending transitions. -/
structure NStepBuffer where
  n : Nat
  gamma : ℚ
  innerCap : Nat
  inner : List Transition
  window : List Transition
  deriving DecidableEq

/-- Modelled from the spec: NStepReplayBuffer.store. The incoming transition
joins the window; a terminal transition flushes every pending partial window
immediately and clears the window; a window grown to n transitions flushes
one synthesized transition and slides by one position; otherwise nothing is
flushed. -/
def nstepStore (b : NStepBuffer) (t : Transition) : NStepBuffer :=
  if t.nextMask = false then
    { b with inner := flushAll b.gamma b.innerCap b.inner (b.window ++ [t]),
             window := [] }
  else if (b.window ++ [t]).length = b.n then
    { b with inner := innerStore b.innerCap b.inner (mkSynth b.gamma (b.window ++ [t])),
             window := List.tail (b.window ++ [t]) }
  else
    { b with window := b.window ++ [t] }

/-- Transition number i of the TestNStepReplayBuffer test_run scenario:
state i, action i, reward i, next state i + 1, alive. -/
def c4trans (i : Nat) : Transition :=
  { state := Int.ofNat i, action := Int.ofNat i, reward := (i : ℚ),
    nextState := Int.ofNat (i + 1), nextMask := true }

/-- Fresh N-step buffer of the tests: n = 4, gamma = 1/2, inner capacity
100. -/
def nstepInit : NStepBuffer :=
  { n := 4, gamma := 1 / 2, innerCap := 100, inner := [], window := [] }

/-- The N-step buffer after the six sequential stores of test_run. -/
def c4final : NStepBuffer :=
  nstepStore (nstepStore (nstepStore (nstepStore (nstepStore
    (nstepStore nstepInit (c4trans 0)) (c4trans 1)) (c4trans 2)) (c4trans 3))
    (c4trans 4)) (c4trans 5)

/-- Non-terminal transition of the TestNStepReplayBuffer test_done scenario. -/
def c5step : Transition :=
  { state := 1, action := 0, reward := 1, nextState := 1, nextMask := true }

/-- Terminal transition of the TestNStepReplayBuffer test_done scenario. -/
def c5done : Transition :=
  { state := 1, action := 0, reward := 1, nextState := 1, nextMask := false }

/-- Concrete N-step buffer holding two pending non-terminal transitions,
reached from nstepInit by storing c5step twice. -/
def c5pending : NStepBuffer := nstepStore (nstepStore nstepInit c5step) c5step

/-- Largest element of a list of rationals (zero for the empty list),
matching a fold with max over the stored importance weights. -/
def maxListQ : List ℚ → ℚ
  | [] => 0
  | t :: ts => List.foldl max t ts

/-- Modelled from the spec: normalization of the importance weights of
PrioritizedReplayBuffer.sample, whose implementation is not under src (only
its test is). Raw weight i is (N * P_i) ^ (-beta); the returned weights are
the raw weights divided by the maximum raw weight over all stored entries,
which is what the expected tables of the test show (global normalization, so
the maximum inside one sampled batch can fall below one). -/
def normalizeWeights (raw : List ℚ) : List ℚ :=
  List.map (fun w => w / maxListQ raw) raw

/-- Second expected weight batch asserted by TestPrioritizedReplayBuffer
test_run in src/tests/memory/replay_buffer_test.py, which the test requires
the returned weights to match to three decimal places. -/
def prTestBatchWeights : List ℚ := [5659 / 10000, 7036 / 10000, 5124 / 10000]

/-- Initial sampler state of the concrete store_samples scenarios: one worker
with outstanding job 0, empty replay buffer. -/
def c2s0 : SamplerState := { workIds := [some 0], nextRef := 1, buffer := [] }

/-- Sampler state after one store_samples call on c2s0 in which job 0 has
completed. -/
def c2s1 : SamplerState := (store_samples (fun _ => true) (fun j => j) c2s0).1

/-- Sampler state with one busy worker (job 5) and one idle worker. -/
def c7s0 : SamplerState := { workIds := [some 5, none], nextRef := 7, buffer := [] }

/-- Sampler state c7s0 after start_sampling dispatched job 7 to the idle
worker. -/
def c7s1 : SamplerState := { workIds := [some 5, some 7], nextRef := 8, buffer := [] }

theorem dispatchGo_busy (l : List (Option ObjectRef)) :
    ∀ (n i j : Nat), l[i]? = some (some j) →
      (dispatchGo n l).1[i]? = some (some j) := by
  induction l with
  | nil => intro n i j h; simp at h
  | cons hd tl ih =>
    intro n i j h
    cases hd with
    | none =>
      cases i with
      | zero => simp at h
      | succ i =>
        simp only [List.getElem?_cons_succ] at h
        simpa only [dispatchGo, List.getElem?_cons_succ] using ih (n + 1) i j h
    | some k =>
      cases i with
      | zero =>
        simpa only [dispatchGo, List.getElem?_cons_zero] using h
      | succ i =>
        simp only [List.getElem?_cons_succ] at h
        simpa only [dispatchGo, List.getElem?_cons_succ] using ih n i j h

theorem dispatchGo_idle (l : List (Option ObjectRef)) :
    ∀ (n i : Nat), l[i]? = some none →
      ∃ k, (dispatchGo n l).1[i]? = some (some k) := by
  induction l with
  | nil => intro n i h; simp at h
  | cons hd tl ih =>
    intro n i h
    cases hd with
    | none =>
      cases i with
      | zero =>
        exact ⟨n, by simp [dispatchGo]⟩
      | succ i =>
        simp only [List.getElem?_cons_succ] at h
        obtain ⟨k, hk⟩ := ih (n + 1) i h
        exact ⟨k, by simpa only [dispatchGo, List.getElem?_cons_succ] using hk⟩
    | some j =>
      cases i with
      | zero => simp at h
      | succ i =>
        simp only [List.getElem?_cons_succ] at h
        obtain ⟨k, hk⟩ := ih n i h
        exact ⟨k, by simpa only [dispatchGo, List.getElem?_cons_succ] using hk⟩

theorem storeSamplesGo_ok (done : ObjectRef → Bool) (result : ObjectRef → Batch) :
    ∀ (l : List (Option ObjectRef)) (buf : List Batch),
      (∀ x ∈ l, x ≠ none) → (storeSamplesGo done result l buf).2 = none := by
  intro l
  induction l with
  | nil => intro buf _; rfl
  | cons hd tl ih =>
    intro buf h
    cases hd with
    | none => exact absurd rfl (h none (List.mem_cons_self _ _))
    | some j =>
      simpa only [storeSamplesGo] using
        ih (if done j then buf ++ [result j] else buf)
          (fun x hx => h x (List.mem_cons_of_mem _ hx))

/-- Claim C1, code bug: AsyncSampler.store_samples in
src/rlil/samplers/asyncsampler.py has no return statement, so even when a
completed batch is retrieved and stored the call returns Python None rather
than a record of frame and episode counters, contradicting the test
test_sampler_episode which reads sample_info of the call. -/
theorem C1_store_samples_returns_none :
    store_samples (fun _ => true) (fun j => j)
      { workIds := [some 0], nextRef := 1, buffer := [] } =
      ({ workIds := [some 0], nextRef := 1, buffer := [0] }, Except.ok none) := by
  rfl

/-- Claim C2, code bug: after store_samples harvests the completed job of a
unit, the work-id table still records the job, so the unit is never marked
idle: a following start_sampling leaves the state unchanged instead of
dispatching a new job, and a second store_samples call stores the same batch
a second time. -/
theorem C2_unit_never_marked_idle :
    c2s1.workIds = [some 0] ∧
    start_sampling (Budget.fin 1) Budget.inf c2s1 = Except.ok c2s1 ∧
    (store_samples (fun _ => true) (fun j => j) c2s1).1.buffer = [0, 0] := by
  refine ⟨rfl, ?_, rfl⟩
  rfl

/-- Claim C3, counterexample: with episodes of length three and a frame
budget of one, the embedded Worker.sample loop produces three frames, while
the per-step-checked loop described by the claim stops at one frame; the
frame budget is therefore not checked after every step. -/
theorem C3_counterexample :
    workerSample (fun _ => 3) (Budget.fin 1) Budget.inf 10 = some (3, 1) ∧
    workerSampleStep (fun _ => 3) (Budget.fin 1) Budget.inf 10 = some (1, 1) ∧
    workerSample (fun _ => 3) (Budget.fin 1) Budget.inf 10 ≠
      workerSampleStep (fun _ => 3) (Budget.fin 1) Budget.inf 10 := by
  refine ⟨rfl, rfl, ?_⟩
  decide

/-- Claim C4, counterexample: storing rewards 0, 1, 2, 3, 4, 5 sequentially
into the N-step buffer with n = 4 and gamma = 1/2 gives a first flushed
reward of 0 + 1 * (1/2) + 2 * (1/4) + 3 * (1/8) = 11/8 = 1.375, not 0.875,
and a second of 1 + 2 * (1/2) + 3 * (1/4) + 4 * (1/8) = 13/4 = 3.25, not
2.75: the claim quotes the formula of TestNStepReplayBuffer test_run but its
stated sums are miscomputed. -/
theorem C4_counterexample :
    Option.map Transition.reward c4final.inner[0]? = some (11 / 8) ∧
    ((11 : ℚ) / 8 ≠ 7 / 8) ∧
    Option.map Transition.reward c4final.inner[1]? = some (13 / 4) ∧
    ((13 : ℚ) / 4 ≠ 11 / 4) := by
  simp only [c4final, nstepInit, c4trans, nstepStore, mkSynth, innerStore,
    flushAll, nstepReturn]
  norm_num [nstepReturn]

/-- Claim C4 (amended): storing the transitions with rewards 0, 1, 2, 3, 4, 5
sequentially into the N-step buffer with n = 4 and gamma = 1/2 flushes a
first synthesized transition of reward 11/8 = 1.375 and a second of reward
13/4 = 3.25, each built from the first state and action of its window and the
last next state and mask of its window, matching the discounted sums asserted
by TestNStepReplayBuffer test_run. -/
theorem C4_amended :
    c4final.inner.length = 3 ∧
    c4final.inner[0]? = some
      { state := 0, action := 0, reward := 11 / 8, nextState := 4, nextMask := true } ∧
    c4final.inner[1]? = some
      { state := 1, action := 1, reward := 13 / 4, nextState := 5, nextMask := true } := by
  refine ⟨rfl, ?_, ?_⟩ <;>
    · simp only [c4final, nstepInit, c4trans, nstepStore, mkSynth, innerStore,
        flushAll, nstepReturn]
      norm_num [nstepReturn]

/-- Claim C5, counterexample: a terminal transition arriving while two
transitions are already pending (window size three, below n = 4) causes three
flushes, not exactly one: the inner buffer grows from zero entries to three,
matching the length jump from one to four asserted by TestNStepReplayBuffer
test_done. -/
theorem C5_counterexample :
    c5pending.inner.length = 0 ∧
    (nstepStore c5pending c5done).inner.length = 3 ∧
    (nstepStore c5pending c5done).inner.length ≠ 1 := by
  refine ⟨rfl, ?_, ?_⟩ <;> decide

/-- Claim C6: start_sampling raises the configuration assertion, before any
dispatch, exactly when both max_frames and max_episodes are left at their
infinite defaults; with at least one finite budget it returns successfully. -/
theorem C6_budget_assertion (mf me : Budget) (s : SamplerState) :
    (∃ msg, start_sampling mf me s = Except.error msg) ↔
      (mf = Budget.inf ∧ me = Budget.inf) := by
  unfold start_sampling
  by_cases h : mf = Budget.inf ∧ me = Budget.inf
  · simp [h]
  · simp [h]

/-- Claim C8, counterexample: the second expected weight batch of
TestPrioritizedReplayBuffer test_run has maximum 0.7036; even with the three
decimal places of tolerance granted by the test, the maximum weight of that
returned batch is below one, so the batch maximum does not equal one and the
weights are not normalized by the batch maximum. -/
theorem C8_counterexample :
    maxListQ prTestBatchWeights = 7036 / 10000 ∧
    maxListQ prTestBatchWeights ≠ 1 ∧
    maxListQ prTestBatchWeights + 15 / 10000 < 1 := by
  have hmax : maxListQ prTestBatchWeights = 7036 / 10000 := by
    simp only [prTestBatchWeights, maxListQ, List.foldl_cons, List.foldl_nil]
    norm_num [max_def]
  refine ⟨hmax, ?_, ?_⟩
  · rw [hmax]; norm_num
  · rw [hmax]; norm_num

/-- Claim C9, counterexample: calling store_samples before any start_sampling
call, when every recorded work id is still None, makes ray.wait raise instead
of skipping the unit, so the call does not complete without raising. -/
theorem C9_counterexample :
    (store_samples (fun _ => true) (fun j => j)
      { workIds := [none], nextRef := 0, buffer := [] }).2 =
      Except.error ("ray.wait received a value that is not an ObjectRef") := by
  rfl

/-- Claim C10: constructing an AsyncSampler while the process-wide singleton
holds no replay buffer fails with ValueError replay_buffer is not set;
registering a buffer first makes construction succeed and bind exactly that
buffer, and the failure happens precisely when the singleton is unset. -/
theorem C10_init_requires_buffer (n : Nat) (b : List Batch) :
    asyncSampler_init none n = Except.error ("replay_buffer is not set") ∧
    asyncSampler_init (some b) n =
      Except.ok { workIds := List.replicate n none, nextRef := 0, buffer := b } ∧
    (∀ rb : Option (List Batch),
      (∃ e, asyncSampler_init rb n = Except.error e) ↔ rb = none) := by
  refine ⟨rfl, rfl, ?_⟩
  intro rb
  cases rb with
  | none => simp [asyncSampler_init, get_replay_buffer]
  | some c => simp [asyncSampler_init, get_replay_buffer]

theorem workerSampleLoop_frames_le (epLen : Nat → Nat) (L k : Nat) (me : Budget)
    (hL : ∀ i, epLen i ≤ L) :
    ∀ (fuel f0 e0 f e : Nat),
      workerSampleLoop epLen (Budget.fin k) me fuel f0 e0 = some (f, e) →
      f ≤ max f0 (k - 1 + L) := by
  intro fuel
  induction fuel with
  | zero => intro f0 e0 f e h; simp [workerSampleLoop] at h
  | succ fuel ih =>
    intro f0 e0 f e h
    simp only [workerSampleLoop] at h
    split at h
    next hc =>
      have hf0 : f0 < k := by
        have h1 := (Bool.and_eq_true _ _).mp hc
        simpa [budgetLt] using h1.1
      have hstep : f0 + epLen e0 ≤ k - 1 + L :=
        Nat.add_le_add (Nat.le_pred_of_lt hf0) (hL e0)
      have hrec := ih (f0 + epLen e0) (e0 + 1) f e h
      have : f ≤ k - 1 + L :=
        le_trans hrec (max_le hstep (le_refl _))
      exact le_trans this (le_max_right _ _)
    next hc =>
      have hfe : f0 = f ∧ e0 = e := by
        have h2 := Option.some.inj h
        exact ⟨congrArg Prod.fst h2, congrArg Prod.snd h2⟩
      rw [← hfe.1]
      exact le_max_left _ _

theorem workerSampleLoop_episodes_le (epLen : Nat → Nat) (m : Nat) (mf : Budget) :
    ∀ (fuel f0 e0 f e : Nat),
      workerSampleLoop epLen mf (Budget.fin m) fuel f0 e0 = some (f, e) →
      e ≤ max e0 m := by
  intro fuel
  induction fuel with
  | zero => intro f0 e0 f e h; simp [workerSampleLoop] at h
  | succ fuel ih =>
    intro f0 e0 f e h
    simp only [workerSampleLoop] at h
    split at h
    next hc =>
      have he0 : e0 < m := by
        have h1 := (Bool.and_eq_true _ _).mp hc
        simpa [budgetLt] using h1.2
      have hrec := ih (f0 + epLen e0) (e0 + 1) f e h
      have : e ≤ m := le_trans hrec (max_le he0 (le_refl _))
      exact le_trans this (le_max_right _ _)
    next hc =>
      have hfe : f0 = f ∧ e0 = e := by
        have h2 := Option.some.inj h
        exact ⟨congrArg Prod.fst h2, congrArg Prod.snd h2⟩
      rw [← hfe.2]
      exact le_max_left _ _

/-- Claim C3 (amended): in Worker.sample both the frame budget and the
episode budget are checked only at episode boundaries, in the condition of
the outer loop, so when every episode has at most L steps the frames produced
exceed a finite frame budget k by at most one episode length minus one
(f ≤ k - 1 + L), and the episodes produced never exceed a finite episode
budget. -/
theorem C3_amended (epLen : Nat → Nat) (L : Nat) (mf me : Budget)
    (k m fuel f e : Nat) (hL : ∀ i, epLen i ≤ L)
    (h : workerSample epLen mf me fuel = some (f, e)) :
    (mf = Budget.fin k → f ≤ k - 1 + L) ∧ (me = Budget.fin m → e ≤ m) := by
  constructor
  · intro hk
    subst hk
    have := workerSampleLoop_frames_le epLen L k me hL fuel 0 0 f e h
    simpa using this
  · intro hm
    subst hm
    have := workerSampleLoop_episodes_le epLen m mf fuel 0 0 f e h
    simpa using this

/-- Concrete instance of the amended claim C3: with episodes of three steps,
frame budget 5 and episode budget 2, the run yields 6 frames and 2 episodes,
within the proved bounds. -/
theorem C3_amended_witness : 6 ≤ 5 - 1 + 3 ∧ 2 ≤ 2 := by
  have h := C3_amended (fun _ => 3) 3 (Budget.fin 5) (Budget.fin 2) 5 2 10 6 2
    (fun _ => Nat.le_refl 3) rfl
  exact ⟨h.1 rfl, h.2 rfl⟩

theorem innerStore_no_evict (cap : Nat) (buf : List Transition) (t : Transition)
    (h : buf.length + 1 ≤ cap) : innerStore cap buf t = buf ++ [t] := by
  have hlen : (buf ++ [t]).length = buf.length + 1 := by simp
  simp only [innerStore, hlen]
  rw [if_neg (by omega)]

theorem flushAll_no_evict (gamma : ℚ) (cap : Nat) :
    ∀ (l inner : List Transition), inner.length + l.length ≤ cap →
      flushAll gamma cap inner l = inner ++ flushList gamma l := by
  intro l
  induction l with
  | nil => intro inner h; simp [flushAll, flushList]
  | cons t ts ih =>
    intro inner h
    simp only [flushAll, flushList]
    have hlen : (t :: ts).length = ts.length + 1 := rfl
    rw [innerStore_no_evict cap inner (mkSynth gamma (t :: ts))
      (by simp at h; omega)]
    rw [ih (inner ++ [mkSynth gamma (t :: ts)]) (by simp at h ⊢; omega)]
    simp

theorem flushList_length (gamma : ℚ) :
    ∀ l : List Transition, (flushList gamma l).length = l.length := by
  intro l
  induction l with
  | nil => rfl
  | cons t ts ih => simp [flushList, ih]

/-- Claim C5 (amended): when a terminal transition arrives, every pending
partial window is flushed immediately, one flush per pending transition (so
k flushes when k transitions are pending, exactly one only when the terminal
is the sole pending transition); the inner buffer grows by exactly one entry
per flush, not per raw store, the first flushed transition is synthesized
from the full truncated window, and the window is cleared. -/
theorem C5_amended (b : NStepBuffer) (t : Transition)
    (hterm : t.nextMask = false)
    (hcap : b.inner.length + b.window.length + 1 ≤ b.innerCap) :
    (nstepStore b t).inner.length = b.inner.length + (b.window.length + 1) ∧
    (nstepStore b t).window = [] ∧
    (nstepStore b t).inner[b.inner.length]? =
      some (mkSynth b.gamma (b.window ++ [t])) := by
  have hb : nstepStore b t =
      { b with inner := flushAll b.gamma b.innerCap b.inner (b.window ++ [t]),
               window := [] } := by
    unfold nstepStore
    rw [hterm]
    simp
  have hfl : flushAll b.gamma b.innerCap b.inner (b.window ++ [t]) =
      b.inner ++ flushList b.gamma (b.window ++ [t]) := by
    refine flushAll_no_evict b.gamma b.innerCap (b.window ++ [t]) b.inner ?_
    simp only [List.length_append, List.length_cons, List.length_nil]
    omega
  refine ⟨?_, ?_, ?_⟩
  · rw [hb]
    simp only [hfl, List.length_append, flushList_length]
    simp
  · rw [hb]
  · rw [hb]
    simp only [hfl]
    rw [List.getElem?_append_right (le_refl b.inner.length), Nat.sub_self]
    cases hw : b.window ++ [t] with
    | nil => simp at hw
    | cons t0 ts => simp [flushList]

/-- Concrete instance of the amended claim C5: a terminal transition arriving
with two pending transitions produces three flushes, the first synthesized
from the whole truncated window, and clears the window. -/
theorem C5_amended_witness :
    (nstepStore c5pending c5done).inner.length =
      c5pending.inner.length + (c5pending.window.length + 1) ∧
    (nstepStore c5pending c5done).window = [] ∧
    (nstepStore c5pending c5done).inner[c5pending.inner.length]? =
      some (mkSynth c5pending.gamma (c5pending.window ++ [c5done])) :=
  C5_amended c5pending c5done rfl (by decide)

/-- Claim C7: start_sampling dispatches a job exactly to the units recorded
as idle: a unit with an outstanding job keeps that same job (no second job is
queued on it), and every idle unit receives a job. -/
theorem C7_dispatch_idle_only (mf me : Budget) (s s2 : SamplerState) (i j : Nat)
    (h : start_sampling mf me s = Except.ok s2) :
    (s.workIds[i]? = some (some j) → s2.workIds[i]? = some (some j)) ∧
    (s.workIds[i]? = some none → ∃ k, s2.workIds[i]? = some (some k)) := by
  unfold start_sampling at h
  split at h
  next => exact absurd h (by simp)
  next =>
    injection h with h
    subst h
    constructor
    · intro hb
      exact dispatchGo_busy s.workIds s.nextRef i j hb
    · intro hb
      exact dispatchGo_idle s.workIds s.nextRef i hb

/-- Concrete instance of claim C7: from one busy worker (job 5) and one idle
worker, start_sampling keeps job 5 on the busy worker and gives the idle
worker a fresh job. -/
theorem C7_witness :
    c7s1.workIds[0]? = some (some 5) ∧
    (∃ k, c7s1.workIds[1]? = some (some k)) := by
  have h0 := C7_dispatch_idle_only (Budget.fin 1) Budget.inf c7s0 c7s1 0 5 rfl
  have h1 := C7_dispatch_idle_only (Budget.fin 1) Budget.inf c7s0 c7s1 1 5 rfl
  exact ⟨h0.1 rfl, h1.2 rfl⟩

/-- Claim C9 (amended): store_samples waits on the recorded id of every unit
unconditionally; when every unit has an outstanding job the call completes
without raising (returning Python None), but a unit whose recorded id is None
makes ray.wait raise, so store_samples must not be called before every unit
has been dispatched to. -/
theorem C9_amended (done : ObjectRef → Bool) (result : ObjectRef → Batch)
    (s : SamplerState) (h : ∀ x ∈ s.workIds, x ≠ none) :
    (store_samples done result s).2 = Except.ok none := by
  unfold store_samples
  rw [storeSamplesGo_ok done result s.workIds s.buffer h]

/-- Concrete instance of the amended claim C9: with both units holding an
outstanding job, store_samples completes without error. -/
theorem C9_amended_witness :
    (store_samples (fun _ => true) (fun j => j)
      { workIds := [some 0, some 1], nextRef := 2, buffer := [] }).2 =
      Except.ok none :=
  C9_amended (fun _ => true) (fun j => j)
    { workIds := [some 0, some 1], nextRef := 2, buffer := [] } (by decide)

theorem le_foldl_max : ∀ (ts : List ℚ) (a : ℚ), a ≤ List.foldl max a ts := by
  intro ts
  induction ts with
  | nil => intro a; exact le_refl a
  | cons t ts ih =>
    intro a
    simp only [List.foldl_cons]
    exact le_trans (le_max_left a t) (ih (max a t))

theorem mem_le_foldl_max :
    ∀ (ts : List ℚ) (a w : ℚ), w ∈ ts → w ≤ List.foldl max a ts := by
  intro ts
  induction ts with
  | nil => intro a w h; simp at h
  | cons t ts ih =>
    intro a w h
    simp only [List.foldl_cons]
    rcases List.mem_cons.mp h with h1 | h2
    · subst h1
      exact le_trans (le_max_right a w) (le_foldl_max ts (max a w))
    · exact ih (max a t) w h2

theorem foldl_max_mem :
    ∀ (ts : List ℚ) (a : ℚ), List.foldl max a ts = a ∨ List.foldl max a ts ∈ ts := by
  intro ts
  induction ts with
  | nil => intro a; exact Or.inl rfl
  | cons t ts ih =>
    intro a
    simp only [List.foldl_cons]
    rcases ih (max a t) with h | h
    · rcases max_choice a t with hm | hm
      · exact Or.inl (h.trans hm)
      · refine Or.inr ?_
        rw [h, hm]
        exact List.mem_cons_self t ts
    · exact Or.inr (List.mem_cons_of_mem t h)

theorem mem_le_maxListQ (l : List ℚ) (w : ℚ) (h : w ∈ l) : w ≤ maxListQ l := by
  cases l with
  | nil => simp at h
  | cons t ts =>
    show w ≤ List.foldl max t ts
    rcases List.mem_cons.mp h with h1 | h2
    · subst h1
      exact le_foldl_max ts w
    · exact mem_le_foldl_max ts t w h2

theorem maxListQ_mem (l : List ℚ) (h : l ≠ []) : maxListQ l ∈ l := by
  cases l with
  | nil => exact absurd rfl h
  | cons t ts =>
    show List.foldl max t ts ∈ t :: ts
    rcases foldl_max_mem ts t with h1 | h1
    · rw [h1]
      exact List.mem_cons_self t ts
    · exact List.mem_cons_of_mem t h1

/-- Claim C8 (amended): with every stored raw importance weight positive,
each normalized weight is at most one, and the weight one is attained over
the whole stored collection (at a maximal raw weight); weights are normalized
by the maximum over all stored entries, not by the batch maximum, so the
maximum inside one sampled batch can be below one. -/
theorem C8_amended (raw : List ℚ) (hpos : ∀ w ∈ raw, 0 < w) :
    (∀ v ∈ normalizeWeights raw, v ≤ 1) ∧
    (raw ≠ [] → 1 ∈ normalizeWeights raw) := by
  constructor
  · intro v hv
    rcases List.mem_map.mp hv with ⟨w, hw, rfl⟩
    have hnil : raw ≠ [] := by
      intro hn
      rw [hn] at hw
      simp at hw
    have hM : 0 < maxListQ raw := hpos _ (maxListQ_mem raw hnil)
    exact (div_le_one hM).mpr (mem_le_maxListQ raw w hw)
  · intro hnil
    have hM : maxListQ raw ∈ raw := maxListQ_mem raw hnil
    have hne : maxListQ raw ≠ 0 := ne_of_gt (hpos _ hM)
    exact List.mem_map.mpr ⟨maxListQ raw, hM, div_self hne⟩

/-- Concrete instance of the amended claim C8: raw weights 1, 2, 4 normalize
to weights all at most one, with the weight one attained. -/
theorem C8_amended_witness :
    (∀ v ∈ normalizeWeights [1, 2, 4], v ≤ 1) ∧
    (([1, 2, 4] : List ℚ) ≠ [] → 1 ∈ normalizeWeights [1, 2, 4]) :=
  C8_amended [1, 2, 4] (by norm_num)
